import Mathlib

/-!
A shallow embedding of the MIPS assembler (`assemble.py`) in Lean 4, together
with theorems settling the specification claims about it.

Conventions of the embedding:
* Python strings are Lean `String`s; string helpers (`strip`, `partition`,
  `split`, slicing, `startswith`) are re-implemented structurally on the
  character list so that they evaluate by kernel reduction.
* Python integers are `Int` (arbitrary precision, like Python).  `x << n` on
  Python ints is `x * 2 ^ n`, `x >> n` is floor division `Int.fdiv x (2 ^ n)`,
  and `x | y` is two's-complement bitwise or, modelled by `pyOr`.
* Python `bytes` values are `List (Fin 256)`.
* Fallible code returns `Except PyErr`; the distinct Python exception classes
  that the source can raise (`AssertionError`, `ValueError`, `OverflowError`,
  `IndexError`) are the constructors of `PyErr`, because `assemble` catches
  only `AssertionError`.
-/

namespace MipsAsm

set_option maxRecDepth 8192

/-! ## Python exception model -/

inductive PyErr where
  | assertionError (msg : String)
  | valueError (msg : String)
  | overflowError (msg : String)
  | indexError (msg : String)
deriving DecidableEq, Repr

abbrev PyResult (α : Type) := Except PyErr α

instance {α : Type} [DecidableEq α] : DecidableEq (PyResult α) := fun x y =>
  match x, y with
  | .ok a, .ok b =>
    if h : a = b then .isTrue (by rw [h]) else .isFalse (by simp [h])
  | .ok _, .error _ => .isFalse (by simp)
  | .error _, .ok _ => .isFalse (by simp)
  | .error e, .error f =>
    if h : e = f then .isTrue (by rw [h]) else .isFalse (by simp [h])

/-! ## Python string primitives -/

/-- The characters stripped by Python `str.strip()` (ASCII whitespace). -/
def isPySpace (c : Char) : Bool :=
  c = ' ' || c = '\t' || c = '\n' || c = '\x0d' || c = '\x0b' || c = '\x0c'

/-- Python `str.strip()`. -/
def pyStrip (s : String) : String :=
  ⟨((s.data.dropWhile isPySpace).reverse.dropWhile isPySpace).reverse⟩

/-- Python `needle in s` (single-character needle). -/
def pyContainsChar (s : String) (c : Char) : Bool :=
  s.data.contains c

/-- Python `s.startswith(prefix)`. -/
def pyStartsWith (s pre : String) : Bool :=
  pre.data.isPrefixOf s.data

/-- Python `s[n:]`. -/
def pyDrop (s : String) (n : Nat) : String :=
  ⟨s.data.drop n⟩

/-- Python `s[:-1]` (drop the final character; identity on `""`). -/
def pyDropLast (s : String) : String :=
  ⟨s.data.dropLast⟩

/-- Python `s[a:b]` for `0 ≤ a ≤ b`. -/
def pySlice (s : String) (a b : Nat) : String :=
  ⟨(s.data.drop a).take (b - a)⟩

/-- Python `len(s)`. -/
def pyLen (s : String) : Nat :=
  s.data.length

def partitionAux (sep : Char) : List Char → Option (List Char × List Char)
  | [] => none
  | c :: rest =>
    if c = sep then some ([], rest)
    else
      match partitionAux sep rest with
      | some (pre, post) => some (c :: pre, post)
      | none => none

/-- Python `s.partition(sep)` for a one-character separator: the part before
the first occurrence, whether the separator was found, the part after. -/
def pyPartition (s : String) (sep : Char) : String × Bool × String :=
  match partitionAux sep s.data with
  | some (pre, post) => (⟨pre⟩, true, ⟨post⟩)
  | none => (s, false, "")

/-- Python `s.rpartition(sep)` for a one-character separator (splits at the
last occurrence; `("", "", s)` when absent). -/
def pyRPartition (s : String) (sep : Char) : String × Bool × String :=
  match partitionAux sep s.data.reverse with
  | some (afterRev, beforeRev) => (⟨beforeRev.reverse⟩, true, ⟨afterRev.reverse⟩)
  | none => ("", false, s)

def splitCharAux (sep : Char) : List Char → List Char → List (List Char)
  | [], acc => [acc.reverse]
  | c :: rest, acc =>
    if c = sep then acc.reverse :: splitCharAux sep rest []
    else splitCharAux sep rest (c :: acc)

/-- Python `s.split(sep)` for a one-character separator. -/
def pySplit (s : String) (sep : Char) : List String :=
  (splitCharAux sep s.data []).map (fun l => ⟨l⟩)

/-- Python `str.upper()` on an ASCII character. -/
def pyUpperChar (c : Char) : Char :=
  if 'a' ≤ c && c ≤ 'z' then Char.ofNat (c.toNat - 32) else c

/-- Python `str.upper()` (ASCII). -/
def pyUpper (s : String) : String :=
  ⟨s.data.map pyUpperChar⟩

/-- Remove every occurrence of a character, Python `s.replace(c, "")`. -/
def pyRemoveChar (s : String) (c : Char) : String :=
  ⟨s.data.filter (fun d => d ≠ c)⟩

/-! ## Python `int(text)` -/

/-- Digit run as accepted by Python `int`: underscores may only appear
between digits. The first character is checked separately. -/
def pyDigitsCore : List Char → Bool
  | [] => true
  | '_' :: c :: rest => c.isDigit && pyDigitsCore (c :: rest)
  | ['_'] => false
  | c :: rest => c.isDigit && pyDigitsCore rest

/-- Whether a (sign-free) character run is a valid Python integer literal
body: nonempty, starts with a digit, underscores only between digits. -/
def pyDigitsAccept (cs : List Char) : Bool :=
  match cs with
  | [] => false
  | c :: _ => c.isDigit && pyDigitsCore cs

/-- Numeric value of a digit run, skipping underscores. -/
def digitsToNat (cs : List Char) : Nat :=
  cs.foldl (fun acc c => if c = '_' then acc else acc * 10 + (c.toNat - 48)) 0

/-- Python `int(text)` (base 10): strips whitespace, allows a single sign,
digits with underscores between them.  `none` models `ValueError`. -/
def pyIntOfString (s : String) : Option Int :=
  let cs := (pyStrip s).data
  match cs with
  | '+' :: rest => if pyDigitsAccept rest then some ((digitsToNat rest : Nat) : Int) else none
  | '-' :: rest => if pyDigitsAccept rest then some (-((digitsToNat rest : Nat) : Int)) else none
  | rest => if pyDigitsAccept rest then some ((digitsToNat rest : Nat) : Int) else none

/-! ## Python ints as bit patterns and bytes -/

/-- Python `x | y` on arbitrary-precision integers (two's complement). -/
def pyOr (a b : Int) : Int :=
  match a, b with
  | .ofNat m, .ofNat n => .ofNat (m ||| n)
  | .ofNat m, .negSucc n => .negSucc (Nat.ldiff n m)
  | .negSucc m, .ofNat n => .negSucc (Nat.ldiff m n)
  | .negSucc m, .negSucc n => .negSucc (m &&& n)

abbrev Byte := Fin 256
abbrev Bytes := List Byte

def byteOf (n : Nat) : Byte := Fin.ofNat n

/-- Big-endian bytes of `n`, `len` bytes (the truncating core of
`int.to_bytes`; the range check is done by `intToBytes`). -/
def beBytes : Nat → Nat → Bytes
  | 0, _ => []
  | k + 1, n => byteOf (n / 256 ^ k) :: beBytes k n

/-- Python `n.to_bytes(length=len, byteorder="big")` (unsigned):
`OverflowError` when out of range. -/
def intToBytes (len : Nat) (n : Int) : PyResult Bytes :=
  if n < 0 then .error (.overflowError "cannot convert negative int to unsigned")
  else if (256 : Int) ^ len ≤ n then .error (.overflowError "int too big to convert")
  else .ok (beBytes len n.toNat)

/-- Python `int.from_bytes(bs, byteorder="big")` (unsigned). -/
def bytesToNat (bs : Bytes) : Nat :=
  bs.foldl (fun acc b => acc * 256 + b.val) 0

/-! ## Hex digits / `bytes.fromhex` / `bytes.hex` -/

def isHexDigitChar (c : Char) : Bool :=
  c.isDigit || ('a' ≤ c && c ≤ 'f') || ('A' ≤ c && c ≤ 'F')

def hexVal (c : Char) : Nat :=
  if c.isDigit then c.toNat - 48
  else if 'a' ≤ c then c.toNat - 87
  else c.toNat - 55

def hexPairs : List Char → List Byte
  | a :: b :: rest => byteOf (hexVal a * 16 + hexVal b) :: hexPairs rest
  | _ => []

/-- Python `bytes.fromhex(s)`: requires an even number of hex digits.
(The source never passes whitespace to it, so the whitespace tolerance of
the Python original is not modelled.) -/
def bytesFromHex (s : String) : PyResult Bytes :=
  if s.data.all isHexDigitChar && pyLen s % 2 = 0 then .ok (hexPairs s.data)
  else .error (.valueError ("non-hexadecimal number found in fromhex() arg: " ++ s))

def hexDigitLower (n : Nat) : Char :=
  if n < 10 then Char.ofNat (48 + n) else Char.ofNat (87 + n)

def hexByteLower (b : Byte) : String :=
  ⟨[hexDigitLower (b.val / 16), hexDigitLower (b.val % 16)]⟩

/-- Python `bytes.hex()` (lowercase, two digits per byte). -/
def bytesHex (bs : Bytes) : String :=
  (bs.map hexByteLower).foldl (fun a b => a ++ b) ""

/-! ## Field maps and operand field parsers (`Field` subclasses) -/

/-- `MachineCodeFields`: the field map built by the operand parsers.  The
fixed key vocabulary of the source (`rs`, `rt`, `rd`, `imm`, `sh_amt`) is
represented as one optional slot per key; `none` means the key is absent. -/
structure MachineCodeFields where
  rs : Option Int := none
  rt : Option Int := none
  rd : Option Int := none
  imm : Option Int := none
  shAmt : Option Int := none
deriving DecidableEq, Repr

/-- Key override used by `{**a, **b}`: `b`'s keys win. -/
def overrideKey (a b : Option Int) : Option Int :=
  match b with
  | some v => some v
  | none => a

/-- Python `{**a, **b}` on field maps. -/
def mergeFields (a b : MachineCodeFields) : MachineCodeFields where
  rs := overrideKey a.rs b.rs
  rt := overrideKey a.rt b.rt
  rd := overrideKey a.rd b.rd
  imm := overrideKey a.imm b.imm
  shAmt := overrideKey a.shAmt b.shAmt

/-- The digit string of a binary literal after `text[2:]` and removal of
underscores and spaces (`Imm.parse`, binary branch). -/
def strippedBits (text : String) : String :=
  pyRemoveChar (pyRemoveChar (pyDrop text 2) '_') ' '

/-- The per-character loop of the binary branch of `Imm.parse`: iterates the
digit string in `reversed` order, carrying the current power of two and the
accumulated value; any character other than `0`/`1` is an assertion error. -/
def parseBitsRev : List Char → Nat → Nat → PyResult Nat
  | [], _, acc => .ok acc
  | c :: rest, power, acc =>
    if c = '0' || c = '1' then
      parseBitsRev rest (power + 1) (if c = '1' then acc + 2 ^ power else acc)
    else .error (.assertionError ("invalid bitstring character " ++ c.toString))

/-- `Imm.parse`. -/
def ImmParse (text : String) : PyResult MachineCodeFields :=
  if pyStartsWith text "0x" then
    let t := pyDrop text 2
    let t := if pyLen t % 2 = 1 then "0" ++ t else t
    match bytesFromHex t with
    | .error e => .error e
    | .ok bs => .ok { imm := some ((bytesToNat bs : Nat) : Int) }
  else if pyStartsWith text "0b" || pyStartsWith text "2_" then
    let t := strippedBits text
    if pyLen t ≤ 16 then
      match parseBitsRev t.data.reverse 0 0 with
      | .error e => .error e
      | .ok val => .ok { imm := some ((val : Nat) : Int) }
    else .error (.assertionError ("bitstring literal " ++ t ++ " too long for 16-bit field"))
  else
    match pyIntOfString text with
    | none => .error (.assertionError ("Invalid immediate " ++ text))
    | some val =>
      if val < 0 then
        if -(2 ^ 15) ≤ val then
          -- val.to_bytes(2, signed=True) then from_bytes unsigned: the 16-bit
          -- two's-complement pattern, i.e. val + 2^16 for val in [-2^15, -1]
          .ok { imm := some (val + 2 ^ 16) }
        else .error (.assertionError ("immediate of " ++ toString val ++ " cannot fit in the field"))
      else .ok { imm := some val }

/-- `_reg_name_to_number`: the group table `{"v": 2, "a": 4, "t": 8, "s": 16, "k": 26}`. -/
def groupTable : List (String × Int) :=
  [("v", 2), ("a", 4), ("t", 8), ("s", 16), ("k", 26)]

/-- The `for name, start_off in groups.items()` loop of `_reg_name_to_number`,
falling through to the final `assert False`. -/
def groupsLookup (regName : String) : List (String × Int) → PyResult Int
  | [] => .error (.assertionError ("invalid register name " ++ regName))
  | (name, startOff) :: rest =>
    if pyStartsWith regName name then
      match pyIntOfString (pyDrop regName (pyLen name)) with
      | some n => .ok (startOff + n)
      | none =>
        .error (.valueError ("invalid literal for int() with base 10: " ++ pyDrop regName (pyLen name)))
    else groupsLookup regName rest

/-- `_reg_name_to_number`. -/
def regNameToNumber (regName : String) : PyResult Int :=
  if regName = "at" then .ok 1
  else if regName = "gp" then .ok 28
  else if regName = "sp" then .ok 29
  else if regName = "fp" then .ok 30
  else if regName = "ra" then .ok 31
  else if regName = "t8" then .ok 24
  else if regName = "t9" then .ok 25
  else groupsLookup regName groupTable

/-- `_reg_spec_to_number`. -/
def regSpecToNumber (text : String) : PyResult Int :=
  if pyStartsWith text "$" then
    let value := pyDrop text 1
    match pyIntOfString value with
    | some n => .ok n
    | none => regNameToNumber value
  else .error (.assertionError ("Register spec " ++ text ++ " did not start with $"))

/-- `Offset.parse` with `register_field_name = "rs"` (`OffsetRs`). -/
def OffsetRsParse (text : String) : PyResult MachineCodeFields :=
  let p := pyRPartition text '('
  let immPart := p.1
  let regPart := pyDropLast p.2.2
  let immPart := if pyLen immPart = 0 then "0" else immPart
  match regSpecToNumber regPart with
  | .error e => .error e
  | .ok reg =>
    match ImmParse immPart with
    | .error e => .error e
    | .ok immFields => .ok { rs := some reg, imm := immFields.imm }

/-- The operand field parser classes appearing in instruction formats. -/
inductive FieldParser where
  | rt | rs | rd | imm | offsetRs
deriving DecidableEq, Repr

/-- Dispatch of `Field.parse` over the parser classes. -/
def parseField : FieldParser → String → PyResult MachineCodeFields
  | .rt, text =>
    match regSpecToNumber text with
    | .error e => .error e
    | .ok n => .ok { rt := some n }
  | .rs, text =>
    match regSpecToNumber text with
    | .error e => .error e
    | .ok n => .ok { rs := some n }
  | .rd, text =>
    match regSpecToNumber text with
    | .error e => .error e
    | .ok n => .ok { rd := some n }
  | .imm, text => ImmParse text
  | .offsetRs, text => OffsetRsParse text

/-! ## Instruction registry and encoders -/

/-- One entry of the instruction registry: mnemonic, opcode, layout class
(R-type with a funct code, or I-type), and the ordered operand parsers. -/
structure InstrType where
  name : String
  opcode : Nat
  isRType : Bool
  funct : Nat
  format : List FieldParser
deriving DecidableEq, Repr

/-- `Instruction._base_val`: `((opcode << 10) | (rs << 5) | rt) << 16`.
Python `<<` on ints is multiplication by a power of two. -/
def baseVal (opcode rs rt : Int) : Int :=
  pyOr (pyOr (opcode * 2 ^ 10) (rs * 2 ^ 5)) rt * 2 ^ 16

/-- `RType.encode` (keyword defaults 0 for absent fields), ending in
`Instruction.to_bytes`, i.e. `instr.to_bytes(length=4, byteorder="big")`. -/
def RTypeEncode (opcode funct : Nat) (f : MachineCodeFields) : PyResult Bytes :=
  let rs := f.rs.getD 0
  let rt := f.rt.getD 0
  let rd := f.rd.getD 0
  let shAmt := f.shAmt.getD 0
  let instr := baseVal (opcode : Int) rs rt
  let instr := pyOr instr (rd * 2 ^ 11)
  let instr := pyOr instr (shAmt * 2 ^ 6)
  let instr := pyOr instr (funct : Int)
  intToBytes 4 instr

/-- `IType.encode`: top two bytes from `instr >> 16` (Python `>>` is floor
division), then the width assertion on `imm`, then the two `imm` bytes. -/
def ITypeEncode (opcode : Nat) (f : MachineCodeFields) : PyResult Bytes :=
  let rs := f.rs.getD 0
  let rt := f.rt.getD 0
  let imm := f.imm.getD 0
  let instr := baseVal (opcode : Int) rs rt
  match intToBytes 2 (Int.fdiv instr (2 ^ 16)) with
  | .error e => .error e
  | .ok topBytes =>
    if imm ≤ 2 ^ 16 - 1 then
      match intToBytes 2 imm with
      | .error e => .error e
      | .ok immBytes => .ok (topBytes ++ immBytes)
    else .error (.assertionError ("immediate of " ++ toString imm ++ " cannot fit in the field"))

/-- `encode` dispatch over the layout class of the descriptor. -/
def encodeInstr (it : InstrType) (f : MachineCodeFields) : PyResult Bytes :=
  if it.isRType then RTypeEncode it.opcode it.funct f else ITypeEncode it.opcode f

/-- The `instruction_types` table.  R-type classes inherit
`Instruction.opcode = 0`; `Nop` subclasses `Sll` (funct `0b000000`) with an
empty format. -/
def instructionTypes : List InstrType :=
  [⟨"addi", 0b001000, false, 0, [.rt, .rs, .imm]⟩,
   ⟨"andi", 0b001100, false, 0, [.rt, .rs, .imm]⟩,
   ⟨"ori", 0b001101, false, 0, [.rt, .rs, .imm]⟩,
   ⟨"xori", 0b001110, false, 0, [.rt, .rs, .imm]⟩,
   ⟨"sw", 0b101011, false, 0, [.rt, .offsetRs]⟩,
   ⟨"lw", 0b100011, false, 0, [.rt, .offsetRs]⟩,
   ⟨"multu", 0, true, 0b011001, [.rd, .rs, .rt]⟩,
   ⟨"sll", 0, true, 0b000000, [.rd, .rt, .rs]⟩,
   ⟨"sra", 0, true, 0b000011, [.rd, .rt, .rs]⟩,
   ⟨"srl", 0, true, 0b000010, [.rd, .rt, .rs]⟩,
   ⟨"add", 0, true, 0b100000, [.rd, .rs, .rt]⟩,
   ⟨"sub", 0, true, 0b100010, [.rd, .rs, .rt]⟩,
   ⟨"and", 0, true, 0b100100, [.rd, .rs, .rt]⟩,
   ⟨"or", 0, true, 0b100101, [.rd, .rs, .rt]⟩,
   ⟨"xor", 0, true, 0b100110, [.rd, .rs, .rt]⟩,
   ⟨"nop", 0, true, 0b000000, []⟩]

/-- `nop_machine_code = b"\x00\x00\x00\x00"`. -/
def nopMachineCode : Bytes := [0, 0, 0, 0]

/-- An Assembled Unit: `(machine-code bytes, optional source line)`. -/
abbrev AUnit := Bytes × Option String

/-! ## The line assembler (`assemble_line`) -/

/-- The `zip(format, operands)` loop merging parsed operand field maps. -/
def parseOperands : List FieldParser → List String → MachineCodeFields → PyResult MachineCodeFields
  | p :: ps, o :: os, acc =>
    match parseField p o with
    | .error e => .error e
    | .ok f => parseOperands ps os (mergeFields acc f)
  | _, _, acc => .ok acc

/-- Tail of `assemble_line` from the arity check on: check the operand
count, parse and merge the operands, encode. -/
def finishOperands (instrType : InstrType) (instrName : String)
    (operands : List String) (comment : Option String) : PyResult (Bytes × Option String) :=
  if operands.length < instrType.format.length then
    .error (.assertionError
      ("instruction " ++ instrName ++ " needs " ++ toString instrType.format.length ++ " operands"))
  else
    match parseOperands instrType.format operands {} with
    | .error e => .error e
    | .ok fields =>
      match encodeInstr instrType fields with
      | .error e => .error e
      | .ok bs => .ok (bs, comment)

/-- `assemble_line`.  Zero-length bytes (`b""`) for blank and comment-only
lines.  NOTE: the positive-arity branch reads the comment text from
`operands[1]` (the second kept token), exactly as the source does. -/
def assembleLine (line0 : String) : PyResult (Bytes × Option String) :=
  let line := pyStrip line0
  if line = "" then .ok ([], none)
  else if pyStartsWith line ";" then .ok ([], some (pyStrip (pyPartition line ';').2.2))
  else
    let pr := pyPartition line ' '
    let instrName := pr.1
    let operandsText := pr.2.2
    match instructionTypes.filter (fun t => t.name = instrName) with
    | [] => .error (.assertionError ("Unknown mnemonic " ++ instrName))
    | [instrType] =>
      if 0 < instrType.format.length then
        let operands := ((pySplit operandsText ',').map pyStrip).take instrType.format.length
        let lastOp := operands.getLast?.getD ""
        if pyContainsChar lastOp ';' then
          match operands.get? 1 with
          | none => .error (.indexError "list index out of range")
          | some op1 =>
            let comment := some (pyStrip (pyPartition op1 ';').2.2)
            let operands := operands.dropLast ++ [pyStrip (((pySplit lastOp ';').headD ""))]
            finishOperands instrType instrName operands comment
        else finishOperands instrType instrName operands none
      else
        if pyContainsChar operandsText ';' then
          let comment := some (pyStrip (pyPartition operandsText ';').2.2)
          let operandsRemainder := pyStrip (pyPartition operandsText ';').1
          if pyStrip operandsRemainder = "" then
            match encodeInstr instrType {} with
            | .error e => .error e
            | .ok bs => .ok (bs, comment)
          else .error (.assertionError ("Did not expect operands for " ++ instrName))
        else
          if pyStrip operandsText = "" then
            match encodeInstr instrType {} with
            | .error e => .error e
            | .ok bs => .ok (bs, none)
          else .error (.assertionError ("Did not expect operands for " ++ instrName))
    | _ :: _ :: _ =>
      .error (.assertionError
        ("Internal error: multiple instruction types registered with name " ++ instrName))

/-! ## The pipeline (`assemble`) -/

/-- The settings record; the Python `setdefault` defaults are the `:= false`
structure defaults. -/
structure Settings where
  addNops : Bool := false
  asVhdl : Bool := false
  byteAddressed : Bool := false
deriving DecidableEq, Repr

def defaultSettings : Settings := {}

/-- The `raise AssertionError(str(e) + f" (offending instruction: {line})")`
re-raise: only `AssertionError`s are caught and annotated; every other
exception class propagates unchanged. -/
def annotateErr (e : PyErr) (line : String) : PyErr :=
  match e with
  | .assertionError m => .assertionError (m ++ " (offending instruction: " ++ line ++ ")")
  | other => other

/-- The directive handling after a line is assembled: a comment beginning
with `pragma` updates `add_nops` or raises the unknown-directive assertion
(which is outside the `try`, hence never annotated). -/
def directiveUpdate (comment : Option String) (addNops : Bool) : PyResult Bool :=
  match comment with
  | none => .ok addNops
  | some c =>
    if pyStartsWith c "pragma" then
      let directive := (pyPartition c ' ').2.2
      if directive = "nops_on" then .ok true
      else if directive = "nops_off" then .ok false
      else .error (.assertionError ("unknown assembler directive " ++ directive))
    else .ok addNops

/-- The first (per-line) loop of `assemble`: collects the `(instr, line)`
pairs of the lines whose bytes are nonempty and threads `add_nops`,
returning its final value. -/
def assembleLoop (lines : List String) (addNops : Bool) : PyResult (List AUnit × Bool) :=
  match lines with
  | [] => .ok ([], addNops)
  | line :: rest =>
    match assembleLine line with
    | .error e => .error (annotateErr e line)
    | .ok (instr, comment) =>
      let emitted : List AUnit := if instr.isEmpty then [] else [(instr, some line)]
      match directiveUpdate comment addNops with
      | .error e => .error e
      | .ok addNops2 =>
        match assembleLoop rest addNops2 with
        | .error e => .error e
        | .ok (units, finalFlag) => .ok (emitted ++ units, finalFlag)

/-- The body of the NOP-expansion loop for one unit: the unit itself,
followed by four `(nop_machine_code, None)` units when its word is not the
all-zero NOP word. -/
def expandUnit (u : AUnit) : List AUnit :=
  if u.1 ≠ nopMachineCode then
    [u, (nopMachineCode, none), (nopMachineCode, none), (nopMachineCode, none), (nopMachineCode, none)]
  else [u]

/-- The NOP-expansion pass of `assemble` (the `instrs_with_nops` loop). -/
def addNopsExpansion (instrs : List AUnit) : List AUnit :=
  instrs.foldl (fun acc u => acc ++ expandUnit u) []

/-! ## Output renderers -/

/-- The body of `machine_code_to_vhdl` for one unit. -/
def vhdlUnitText (byteAddressed : Bool) (instr : Bytes) (srcLine : Option String) : String :=
  let instrHex := pyUpper (bytesHex instr)
  let body :=
    if byteAddressed then
      (List.range 4).foldl
        (fun acc startIdx =>
          let byte := pySlice instrHex (startIdx * 2) ((startIdx + 1) * 2)
          acc ++ "x\"" ++ byte ++ "\"," ++ (if startIdx < 3 then " " else ""))
        ""
    else "x\"" ++ instrHex ++ "\","
  let commentPart :=
    match srcLine with
    | some s => " -- " ++ pyStrip s
    | none => ""
  "        " ++ body ++ commentPart

/-- `machine_code_to_vhdl`: accumulate one line plus `"\n"` per unit, then
strip the final character. -/
def machineCodeToVhdl (machineCode : List AUnit) (byteAddressed : Bool) : String :=
  pyDropLast
    (machineCode.foldl (fun acc u => acc ++ vhdlUnitText byteAddressed u.1 u.2 ++ "\n") "")

def joinLinesAux : List String → String
  | [] => ""
  | [l] => l
  | l :: rest => l ++ "\n" ++ joinLinesAux rest

/-- `machine_code_to_text`: `"\n".join` of the lowercase hex words. -/
def machineCodeToText (machineCode : List AUnit) : String :=
  joinLinesAux (machineCode.map (fun u => bytesHex u.1))

/-- `assemble`. -/
def assemble (sourceLines : List String) (settings : Settings) : PyResult (List AUnit × String) :=
  match assembleLoop sourceLines settings.addNops with
  | .error e => .error e
  | .ok (instrs0, finalAddNops) =>
    let instructions := if finalAddNops then addNopsExpansion instrs0 else instrs0
    let codeText :=
      if settings.asVhdl then machineCodeToVhdl instructions settings.byteAddressed
      else machineCodeToText instructions
    .ok (instructions, codeText)

/-! ## Specification-side definitions

These definitions follow the words of the specification (not the source);
they are compared with the source-derived definitions above. -/

/-- Reinterpret a 16-bit unsigned field value as a signed 16-bit integer. -/
def asSigned16 (u : Int) : Int :=
  if 2 ^ 15 ≤ u then u - 2 ^ 16 else u

/-- Unsigned value of a binary digit string, most significant digit first. -/
def bitsValue (cs : List Char) : Nat :=
  cs.foldl (fun acc c => acc * 2 + (if c = '1' then 1 else 0)) 0

/-- Least-significant-first value of a binary digit string (helper for the
reversed iteration of `parseBitsRev`). -/
def bitsValRev : List Char → Nat
  | [] => 0
  | c :: rest => (if c = '1' then 1 else 0) + 2 * bitsValRev rest

def hexDigitUpper (n : Nat) : Char :=
  if n < 10 then Char.ofNat (48 + n) else Char.ofNat (55 + n)

/-- A byte as two uppercase hex digits. -/
def hexByteUpper (b : Byte) : String :=
  ⟨[hexDigitUpper (b.val / 16), hexDigitUpper (b.val % 16)]⟩

/-- The line the specification describes for one unit of the byte-addressed
hardware-constant rendering: two levels of indentation, four 2-hex-digit
literal tokens each followed by a comma with a separator between all but the
last, then the trimmed source line after a comment marker when present. -/
def vhdlByteLineSpec (u : AUnit) : String :=
  match u.1 with
  | [b0, b1, b2, b3] =>
    "        " ++ "x\"" ++ hexByteUpper b0 ++ "\", x\"" ++ hexByteUpper b1 ++ "\", x\"" ++
      hexByteUpper b2 ++ "\", x\"" ++ hexByteUpper b3 ++ "\"," ++
      (match u.2 with
       | some s => " -- " ++ pyStrip s
       | none => "")
  | _ => ""

/-- The whole byte-addressed rendering per the specification: the per-unit
lines joined by newlines, no trailing newline after the final line. -/
def vhdlByteSpecRender (units : List AUnit) : String :=
  joinLinesAux (units.map vhdlByteLineSpec)

/-- A source line that is blank after trimming, or is comment-only with a
comment that does not carry a pragma. -/
def blankOrPlainComment (l : String) : Bool :=
  pyStrip l = "" ||
    (pyStartsWith (pyStrip l) ";" &&
      !(pyStartsWith (pyStrip (pyPartition (pyStrip l) ';').2.2) "pragma"))

/-! ## Helper lemmas -/

theorem expansion_foldl_acc (l : List AUnit) (acc : List AUnit) :
    l.foldl (fun a u => a ++ expandUnit u) acc = acc ++ l.foldl (fun a u => a ++ expandUnit u) [] := by
  induction l generalizing acc with
  | nil => simp
  | cons u rest ih =>
    show List.foldl _ (acc ++ expandUnit u) rest = acc ++ List.foldl _ ([] ++ expandUnit u) rest
    rw [ih (acc ++ expandUnit u), ih ([] ++ expandUnit u)]
    simp [List.append_assoc]

theorem addNopsExpansion_cons (u : AUnit) (l : List AUnit) :
    addNopsExpansion (u :: l) = expandUnit u ++ addNopsExpansion l := by
  show List.foldl _ ([] ++ expandUnit u) l = _
  rw [expansion_foldl_acc l ([] ++ expandUnit u)]
  simp [addNopsExpansion]

theorem addNopsExpansion_append (a b : List AUnit) :
    addNopsExpansion (a ++ b) = addNopsExpansion a ++ addNopsExpansion b := by
  induction a with
  | nil => simp [addNopsExpansion]
  | cons u rest ih =>
    rw [List.cons_append, addNopsExpansion_cons, addNopsExpansion_cons, ih, List.append_assoc]

theorem assembleLoop_append (xs ys : List String) (flag : Bool) :
    assembleLoop (xs ++ ys) flag =
      match assembleLoop xs flag with
      | .error e => .error e
      | .ok (us, f) =>
        match assembleLoop ys f with
        | .error e => .error e
        | .ok (vs, g) => .ok (us ++ vs, g) := by
  induction xs generalizing flag with
  | nil =>
    show assembleLoop ys flag = _
    cases h : assembleLoop ys flag with
    | error e => simp [assembleLoop, h]
    | ok p => cases p with | mk vs g => simp [assembleLoop, h]
  | cons line rest ih =>
    rw [List.cons_append]
    cases hline : assembleLine line with
    | error e => simp [assembleLoop, hline]
    | ok r =>
      obtain ⟨instr, comment⟩ := r
      cases hdir : directiveUpdate comment flag with
      | error e => simp [assembleLoop, hline, hdir]
      | ok flag2 =>
        simp only [assembleLoop, hline, hdir]
        rw [ih flag2]
        cases h1 : assembleLoop rest flag2 with
        | error e => simp [h1]
        | ok p =>
          obtain ⟨us, f⟩ := p
          simp only [h1]
          cases h2 : assembleLoop ys f with
          | error e => simp [h2]
          | ok q =>
            obtain ⟨vs, g⟩ := q
            simp [h2, List.append_assoc]

theorem parseBitsRev_ok (cs : List Char) (power acc : Nat)
    (h : ∀ c ∈ cs, c = '0' ∨ c = '1') :
    parseBitsRev cs power acc = .ok (acc + 2 ^ power * bitsValRev cs) := by
  induction cs generalizing power acc with
  | nil => simp [parseBitsRev, bitsValRev]
  | cons c rest ih =>
    have hc : c = '0' ∨ c = '1' := h c (by simp)
    have hrest : ∀ d ∈ rest, d = '0' ∨ d = '1' := fun d hd => h d (by simp [hd])
    have hcond : (c = '0' || c = '1') = true := by
      rcases hc with rfl | rfl <;> simp
    rw [parseBitsRev, if_pos hcond, ih _ _ hrest]
    rcases hc with rfl | rfl <;> simp [bitsValRev] <;> ring

theorem parseBitsRev_err (cs : List Char) (power acc : Nat)
    (h : ∃ c ∈ cs, ¬(c = '0' ∨ c = '1')) :
    ∃ m, parseBitsRev cs power acc = .error (.assertionError m) := by
  induction cs generalizing power acc with
  | nil => simp at h
  | cons c rest ih =>
    by_cases hc : (c = '0' || c = '1') = true
    · rw [parseBitsRev, if_pos hc]
      apply ih
      rcases h with ⟨d, hd, hdbad⟩
      rcases List.mem_cons.mp hd with rfl | hmem
      · exact absurd (by simpa using hc) hdbad
      · exact ⟨d, hmem, hdbad⟩
    · rw [parseBitsRev, if_neg hc]
      exact ⟨_, rfl⟩

theorem bitsValRev_reverse (cs : List Char) : bitsValRev cs.reverse = bitsValue cs := by
  induction cs using List.reverseRecOn with
  | nil => rfl
  | append_singleton l c ih =>
    rw [List.reverse_append]
    simp only [List.reverse_cons, List.reverse_nil, List.nil_append, List.singleton_append]
    rw [bitsValRev, ih]
    unfold bitsValue
    rw [List.foldl_append]
    simp [List.foldl]
    ring

theorem pyOr_natCast (m n : Nat) : pyOr (m : Int) (n : Int) = ((m ||| n : Nat) : Int) := rfl

theorem intToBytes_natCast (len K : Nat) (h : K < 256 ^ len) :
    intToBytes len ((K : Nat) : Int) = .ok (beBytes len K) := by
  have hneg2 : ¬ ((256 : Int) ^ len ≤ (K : Int)) := by
    rw [show ((256 : Int) ^ len) = ((256 ^ len : Nat) : Int) by push_cast; ring]
    exact_mod_cast Nat.not_le.mpr h
  unfold intToBytes
  rw [if_neg (Int.not_lt.mpr (Int.natCast_nonneg K)), if_neg hneg2, Int.toNat_natCast]

theorem ITypeEncode_range_err (opcode : Nat) (f : MachineCodeFields)
    (hlo : 0 ≤ Int.fdiv (baseVal (opcode : Int) (f.rs.getD 0) (f.rt.getD 0)) (2 ^ 16))
    (hhi : Int.fdiv (baseVal (opcode : Int) (f.rs.getD 0) (f.rt.getD 0)) (2 ^ 16) < (256 : Int) ^ 2)
    (himm : 2 ^ 16 - 1 < f.imm.getD 0) :
    ITypeEncode opcode f =
      .error (.assertionError ("immediate of " ++ toString (f.imm.getD 0) ++ " cannot fit in the field")) := by
  have htop : intToBytes 2 (Int.fdiv (baseVal (opcode : Int) (f.rs.getD 0) (f.rt.getD 0)) (2 ^ 16)) =
      .ok (beBytes 2 (Int.fdiv (baseVal (opcode : Int) (f.rs.getD 0) (f.rt.getD 0)) (2 ^ 16)).toNat) := by
    unfold intToBytes
    rw [if_neg (Int.not_lt.mpr hlo), if_neg (Int.not_le.mpr hhi)]
  have hlt : ¬ (f.imm.getD 0 ≤ 2 ^ 16 - 1) := by omega
  simp only [ITypeEncode]
  rw [htop]
  exact if_neg hlt

theorem natCast_mul_pow (a k : Nat) : ((a : Int) * 2 ^ k) = ((a * 2 ^ k : Nat) : Int) := by
  push_cast
  ring

theorem RTypeEncode_natFields (opcode funct rsv rtv rdv shv : Nat) :
    RTypeEncode opcode funct
      { rs := some ((rsv : Nat) : Int), rt := some ((rtv : Nat) : Int),
        rd := some ((rdv : Nat) : Int), shAmt := some ((shv : Nat) : Int) } =
    intToBytes 4
      ((((opcode * 2 ^ 10 ||| rsv * 2 ^ 5 ||| rtv) * 2 ^ 16 ||| rdv * 2 ^ 11 ||| shv * 2 ^ 6 ||| funct
            : Nat) : Int)) := by
  simp only [RTypeEncode, baseVal, Option.getD_some, natCast_mul_pow, pyOr_natCast]

/-! ## Claim theorems -/

/-- C1 (code bug in the source): on the 3-operand instruction line
`add $t0, $t1, $t2 ; pragma nops_on`, whose last kept operand token carries
the `;` comment, the line assembler returns the comment `""` extracted from
`operands[1]` (the second token) — not `"pragma nops_on"`, the text after
`;` in the last kept token, as the claim and the source's own inline comment
state. -/
theorem comment_read_from_second_operand :
    assembleLine "add $t0, $t1, $t2 ; pragma nops_on" = .ok ([1, 42, 64, 32], some "")
    ∧ (some "" : Option String) ≠ some "pragma nops_on" := by
  exact ⟨by decide, by decide⟩

/-- C2 counterexample: the malformed register `$tx` makes `int("x")` raise a
`ValueError`, which `assemble` does not catch, so the error that escapes
`assemble` does not carry the offending source line appended (its message
does not even end with the line text). -/
theorem valueError_escapes_unannotated :
    assemble ["add $tx, $0, $0"] defaultSettings =
      .error (.valueError "invalid literal for int() with base 10: x")
    ∧ ("add $tx, $0, $0" ++ ")").data.isSuffixOf
        "invalid literal for int() with base 10: x".data = false := by
  exact ⟨by decide, by decide⟩

/-- C2 (amended): a per-line failure raised as an `AssertionError` (unknown
mnemonic, unknown symbolic register name, malformed decimal immediate,
arity error, immediate range error) aborts the whole run with the offending
line's original text appended to the message; failures raised as other
exception classes (such as `ValueError` from a malformed register-group
suffix or malformed hex digits) also abort the whole run with no partial
output, but propagate without the line text. -/
theorem assertion_failures_annotated_with_line (pre : List String) (line : String)
    (rest : List String) (s : Settings) (us : List AUnit) (flag : Bool) (msg : String)
    (hpre : assembleLoop pre s.addNops = .ok (us, flag))
    (hline : assembleLine line = .error (.assertionError msg)) :
    assemble (pre ++ line :: rest) s =
      .error (.assertionError (msg ++ " (offending instruction: " ++ line ++ ")")) := by
  have h1 : assembleLoop (line :: rest) flag =
      .error (.assertionError (msg ++ " (offending instruction: " ++ line ++ ")")) := by
    rw [assembleLoop, hline]
    rfl
  have hloop : assembleLoop (pre ++ line :: rest) s.addNops =
      .error (.assertionError (msg ++ " (offending instruction: " ++ line ++ ")")) := by
    rw [assembleLoop_append, hpre]
    simp [h1]
  simp [assemble, hloop]

theorem assertion_failures_annotated_with_line_witness :
    assemble ["addi $t0, $t0, zz"] defaultSettings =
      .error (.assertionError "Invalid immediate zz (offending instruction: addi $t0, $t0, zz)") := by
  have h := assertion_failures_annotated_with_line [] "addi $t0, $t0, zz" [] defaultSettings
    [] false "Invalid immediate zz" rfl (by decide)
  exact h.trans (by decide)

/-- C4: NOP expansion is applied to the whole assembled sequence if and only
if the final value of `add_nops` after the per-line pass is true: the
assembled output is the expansion of the entire pass-one sequence (or that
sequence unchanged), and the expansion puts four all-zero NOP units with no
source text immediately after every unit whose word is not all-zero —
including units assembled before the pragma line that enabled the setting. -/
theorem nop_expansion_is_one_shot_global (lines : List String) (s : Settings)
    (us : List AUnit) (flag : Bool)
    (h : assembleLoop lines s.addNops = .ok (us, flag)) :
    (assemble lines s).map Prod.fst = .ok (if flag then addNopsExpansion us else us)
    ∧ ∀ (pre post : List AUnit) (u : AUnit), us = pre ++ u :: post → u.1 ≠ nopMachineCode →
        addNopsExpansion us =
          addNopsExpansion pre ++ u :: (nopMachineCode, none) :: (nopMachineCode, none) ::
            (nopMachineCode, none) :: (nopMachineCode, none) :: addNopsExpansion post := by
  constructor
  · simp [assemble, h, Except.map]
  · intro pre post u hus hnop
    subst hus
    rw [addNopsExpansion_append, addNopsExpansion_cons, expandUnit, if_pos hnop]
    simp

theorem nop_expansion_is_one_shot_global_witness :
    (assemble ["lw $t1, 0x3fe($0)", "; pragma nops_on", "addi $t2, $0, 1"] defaultSettings).map
        Prod.fst =
      .ok [([140, 9, 3, 254], some "lw $t1, 0x3fe($0)"),
        (nopMachineCode, none), (nopMachineCode, none), (nopMachineCode, none), (nopMachineCode, none),
        ([32, 10, 0, 1], some "addi $t2, $0, 1"),
        (nopMachineCode, none), (nopMachineCode, none), (nopMachineCode, none), (nopMachineCode, none)] := by
  have h := (nop_expansion_is_one_shot_global
    ["lw $t1, 0x3fe($0)", "; pragma nops_on", "addi $t2, $0, 1"] defaultSettings
    [([140, 9, 3, 254], some "lw $t1, 0x3fe($0)"), ([32, 10, 0, 1], some "addi $t2, $0, 1")]
    true (by decide)).1
  exact h.trans (by decide)

/-- C5: assembling the line `nop` yields exactly the all-zero 4-byte word
with no comment, the expansion step never inserts synthetic NOPs after a
unit whose word is the all-zero word, and consequently a sequence of
all-zero units is left unchanged by NOP expansion. -/
theorem nop_word_never_followed_by_inserted_nops :
    assembleLine "nop" = .ok (nopMachineCode, none)
    ∧ (∀ u : AUnit, u.1 = nopMachineCode → expandUnit u = [u])
    ∧ ∀ l : List AUnit, (∀ u ∈ l, u.1 = nopMachineCode) → addNopsExpansion l = l := by
  refine ⟨by decide, fun u hu => by simp [expandUnit, hu], fun l hl => ?_⟩
  induction l with
  | nil => rfl
  | cons u rest ih =>
    rw [addNopsExpansion_cons,
      show expandUnit u = [u] from by simp [expandUnit, hl u (by simp)],
      ih (fun v hv => hl v (by simp [hv]))]
    rfl

theorem nop_word_never_followed_by_inserted_nops_witness :
    addNopsExpansion [(nopMachineCode, none), (nopMachineCode, none)] =
      [(nopMachineCode, none), (nopMachineCode, none)] :=
  nop_word_never_followed_by_inserted_nops.2.2 _ (by decide)

/-- C3 counterexample: `add $99, $0, $0` assembles successfully instead of
failing — the register number 99 does not fit the 5-bit rd field, yet the
line encodes to `00 03 18 20`, whose rd-field bits hold 3 (= 99 mod 32),
the excess having spilled into the rt field's bits. -/
theorem register_field_overflow_assembles :
    assembleLine "add $99, $0, $0" = .ok ([0, 3, 24, 32], none)
    ∧ (bytesToNat [0, 3, 24, 32] / 2 ^ 11) % 2 ^ 5 = 3 := by
  exact ⟨by decide, by decide⟩

/-- C3 (amended): the final packing step range-checks only the 16-bit imm
field — `IType.encode` fails whenever the imm value exceeds 65535 (whenever
the opcode/rs/rt skeleton halfword itself converts) — while register field
values are packed with no range check at all: `RType.encode` succeeds for
every rd value below 2^20, or-ing `rd << 11` into the word so that
out-of-range register numbers spill into neighbouring fields. -/
theorem only_imm_field_width_checked :
    (∀ (opcode : Nat) (f : MachineCodeFields),
      0 ≤ Int.fdiv (baseVal (opcode : Int) (f.rs.getD 0) (f.rt.getD 0)) (2 ^ 16) →
      Int.fdiv (baseVal (opcode : Int) (f.rs.getD 0) (f.rt.getD 0)) (2 ^ 16) < (256 : Int) ^ 2 →
      2 ^ 16 - 1 < f.imm.getD 0 →
      ITypeEncode opcode f =
        .error (.assertionError ("immediate of " ++ toString (f.imm.getD 0) ++ " cannot fit in the field")))
    ∧ ∀ rdv : Nat, rdv < 2 ^ 20 →
        RTypeEncode 0 32
            { rs := some 0, rt := some 0, rd := some ((rdv : Nat) : Int), shAmt := some 0 } =
          .ok (beBytes 4 (rdv * 2 ^ 11 ||| 32)) := by
  constructor
  · exact fun opcode f hlo hhi himm => ITypeEncode_range_err opcode f hlo hhi himm
  · intro rdv hlt
    have h := RTypeEncode_natFields 0 32 0 0 rdv 0
    simp only [Nat.cast_zero] at h
    have hval : ((0 * 2 ^ 10 ||| 0 * 2 ^ 5 ||| 0) * 2 ^ 16 ||| rdv * 2 ^ 11 ||| 0 * 2 ^ 6 ||| 32)
        = (rdv * 2 ^ 11 ||| 32) := by
      simp
    rw [hval] at h
    rw [h]
    have hbound : rdv * 2 ^ 11 ||| 32 < 256 ^ 4 := by
      have h1 : rdv * 2 ^ 11 < 2 ^ 32 := by nlinarith
      have h2 : (32 : Nat) < 2 ^ 32 := by norm_num
      have h3 := Nat.or_lt_two_pow h1 h2
      omega
    exact intToBytes_natCast 4 _ hbound

theorem only_imm_field_width_checked_witness :
    ITypeEncode 8 { imm := some 70000 } =
      .error (.assertionError "immediate of 70000 cannot fit in the field")
    ∧ RTypeEncode 0 32 { rs := some 0, rt := some 0, rd := some 99, shAmt := some 0 } =
        .ok [0, 3, 24, 32] := by
  constructor
  · exact (only_imm_field_width_checked.1 8 { imm := some 70000 }
      (by decide) (by decide) (by decide)).trans (by decide)
  · exact (only_imm_field_width_checked.2 99 (by norm_num)).trans (by decide)

theorem baseVal_natCast (a b c : Nat) :
    baseVal ((a : Nat) : Int) ((b : Nat) : Int) ((c : Nat) : Int) =
      (((a * 2 ^ 10 ||| b * 2 ^ 5 ||| c) * 2 ^ 16 : Nat) : Int) := by
  simp only [baseVal, natCast_mul_pow, pyOr_natCast]

theorem ITypeEncode_imm_only_range_err (opcode : Nat) (hop : opcode < 64) (v : Int)
    (himm : 2 ^ 16 - 1 < v) :
    ITypeEncode opcode { imm := some v } =
      .error (.assertionError ("immediate of " ++ toString v ++ " cannot fit in the field")) := by
  have hfd : Int.fdiv (baseVal ((opcode : Nat) : Int) ((0 : Nat) : Int) ((0 : Nat) : Int)) (2 ^ 16)
      = ((opcode * 2 ^ 10 : Nat) : Int) := by
    rw [baseVal_natCast]
    rw [show (((opcode * 2 ^ 10 ||| 0 * 2 ^ 5 ||| 0) * 2 ^ 16 : Nat) : Int)
        = ((opcode * 2 ^ 10 : Nat) : Int) * 2 ^ 16 by push_cast; simp]
    exact Int.mul_fdiv_cancel _ (by norm_num)
  apply ITypeEncode_range_err
  · show 0 ≤ Int.fdiv (baseVal ((opcode : Nat) : Int) ((0 : Nat) : Int) ((0 : Nat) : Int)) (2 ^ 16)
    rw [hfd]
    exact Int.natCast_nonneg _
  · show Int.fdiv (baseVal ((opcode : Nat) : Int) ((0 : Nat) : Int) ((0 : Nat) : Int)) (2 ^ 16) <
      (256 : Int) ^ 2
    rw [hfd]
    push_cast
    omega
  · show (2 : Int) ^ 16 - 1 < ({ imm := some v } : MachineCodeFields).imm.getD 0
    exact himm

theorem bytesToNat_beBytes2 (n : Nat) (h : n < 2 ^ 16) : bytesToNat (beBytes 2 n) = n := by
  show bytesToNat (byteOf (n / 256 ^ 1) :: byteOf (n / 256 ^ 0) :: []) = n
  simp only [bytesToNat, byteOf, Fin.ofNat, List.foldl]
  omega

/-- C6: for a decimal immediate text whose Python integer value is `v`:
values in `[-32768, -1]` are stored as the 16-bit two's-complement pattern
`v + 2^16` (packing that pattern into the 16-bit field and reading it back
as signed recovers `v`); values in `[0, 65535]` are stored unchanged (and
read back unsigned unchanged); values below `-32768` fail at parse with a
range error; values above `65535` parse but fail with a range error when
any I-type instruction packs them. -/
theorem decimal_immediate_range_and_twos_complement (text : String) (v : Int)
    (hx : pyStartsWith text "0x" = false) (hb : pyStartsWith text "0b" = false)
    (h2 : pyStartsWith text "2_" = false)
    (hv : pyIntOfString text = some v) :
    (-32768 ≤ v → v < 0 →
      ImmParse text = .ok { imm := some (v + 2 ^ 16) }
      ∧ asSigned16 ((bytesToNat (beBytes 2 (v + 2 ^ 16).toNat) : Nat) : Int) = v)
    ∧ (0 ≤ v → v ≤ 65535 →
      ImmParse text = .ok { imm := some v }
      ∧ ((bytesToNat (beBytes 2 v.toNat) : Nat) : Int) = v)
    ∧ (v < -32768 →
      ImmParse text =
        .error (.assertionError ("immediate of " ++ toString v ++ " cannot fit in the field")))
    ∧ (65535 < v →
      ImmParse text = .ok { imm := some v }
      ∧ ∀ it ∈ instructionTypes, it.isRType = false →
          ITypeEncode it.opcode { imm := some v } =
            .error (.assertionError ("immediate of " ++ toString v ++ " cannot fit in the field"))) := by
  have hdec : ImmParse text =
      (if v < 0 then
        if -(2 ^ 15) ≤ v then .ok { imm := some (v + 2 ^ 16) }
        else .error (.assertionError ("immediate of " ++ toString v ++ " cannot fit in the field"))
      else .ok { imm := some v }) := by
    simp only [ImmParse, hx, hb, h2, hv]
    rfl
  refine ⟨fun hge hneg => ⟨?_, ?_⟩, fun hge hle => ⟨?_, ?_⟩, fun hlt => ?_, fun hgt => ⟨?_, ?_⟩⟩
  · rw [hdec, if_pos hneg, if_pos (by norm_num; omega)]
  · have htn : (v + 2 ^ 16).toNat < 2 ^ 16 := by omega
    rw [bytesToNat_beBytes2 _ htn]
    have hc : (((v + 2 ^ 16).toNat : Nat) : Int) = v + 2 ^ 16 := by omega
    rw [hc]
    unfold asSigned16
    rw [if_pos (by norm_num; omega)]
    ring
  · rw [hdec, if_neg (by omega)]
  · have htn : v.toNat < 2 ^ 16 := by omega
    rw [bytesToNat_beBytes2 _ htn]
    omega
  · rw [hdec, if_pos (by omega), if_neg (by norm_num; omega)]
  · rw [hdec, if_neg (by omega)]
  · intro it hmem hr
    simp only [instructionTypes, List.mem_cons, List.not_mem_nil, or_false] at hmem
    rcases hmem with rfl | rfl | rfl | rfl | rfl | rfl | rfl | rfl | rfl | rfl | rfl | rfl | rfl | rfl | rfl | rfl <;>
      first
        | exact absurd hr (by decide)
        | exact ITypeEncode_imm_only_range_err _ (by decide) v (by omega)

set_option maxHeartbeats 1000000 in
theorem decimal_immediate_range_and_twos_complement_witness :
    (ImmParse "-1" = .ok { imm := some 65535 }
      ∧ asSigned16 ((bytesToNat (beBytes 2 ((-1 : Int) + 2 ^ 16).toNat) : Nat) : Int) = -1)
    ∧ (ImmParse "7" = .ok { imm := some 7 })
    ∧ ImmParse "-32769" =
        .error (.assertionError "immediate of -32769 cannot fit in the field")
    ∧ ImmParse "70000" = .ok { imm := some 70000 }
    ∧ ITypeEncode 8 { imm := some 70000 } =
        .error (.assertionError "immediate of 70000 cannot fit in the field") := by
  have hneg := (decimal_immediate_range_and_twos_complement "-1" (-1)
    (by decide) (by decide) (by decide) (by decide)).1 (by norm_num) (by norm_num)
  have hpos := (decimal_immediate_range_and_twos_complement "7" 7
    (by decide) (by decide) (by decide) (by decide)).2.1 (by norm_num) (by norm_num)
  have hlow := (decimal_immediate_range_and_twos_complement "-32769" (-32769)
    (by decide) (by decide) (by decide) (by decide)).2.2.1 (by norm_num)
  have hhigh := (decimal_immediate_range_and_twos_complement "70000" 70000
    (by decide) (by decide) (by decide) (by decide)).2.2.2 (by norm_num)
  have henc := hhigh.2 ⟨"addi", 8, false, 0, [.rt, .rs, .imm]⟩ (List.Mem.head _) rfl
  exact ⟨⟨hneg.1.trans (by decide), hneg.2⟩, hpos.1, hlow.trans (by decide),
    hhigh.1, henc.trans (by decide)⟩

/-- C7 counterexample: the 17-digit binary literal `0b00000000000000001`,
whose value 1 fits in 16 bits, is rejected — the length assertion counts
digits (leading zeros included), not significant bits. -/
theorem seventeen_digit_binary_literal_rejected :
    ImmParse "0b00000000000000001" =
      .error (.assertionError "bitstring literal 00000000000000001 too long for 16-bit field") := by
  decide

/-- C7 (amended): for a binary immediate literal (`0b` or `2_` prefix, not
`0x`, underscores and spaces stripped): parsing fails whenever the stripped
digit string is longer than 16 characters — the check counts digits, with
leading zeros included, not significant bits; within 16 characters parsing
fails exactly when some character is neither `0` nor `1`; and an accepted
literal evaluates to its unsigned binary value. -/
theorem binary_literal_digit_count_and_charset (text : String)
    (hx : pyStartsWith text "0x" = false)
    (hb : pyStartsWith text "0b" = true ∨ pyStartsWith text "2_" = true) :
    (16 < pyLen (strippedBits text) →
      ImmParse text =
        .error (.assertionError
          ("bitstring literal " ++ strippedBits text ++ " too long for 16-bit field")))
    ∧ (pyLen (strippedBits text) ≤ 16 → (∀ c ∈ (strippedBits text).data, c = '0' ∨ c = '1') →
      ImmParse text = .ok { imm := some ((bitsValue (strippedBits text).data : Nat) : Int) })
    ∧ (pyLen (strippedBits text) ≤ 16 → (∃ c ∈ (strippedBits text).data, ¬(c = '0' ∨ c = '1')) →
      ∃ m, ImmParse text = .error (.assertionError m)) := by
  have hcond : (pyStartsWith text "0b" || pyStartsWith text "2_") = true := by
    rcases hb with h | h <;> simp [h]
  refine ⟨fun hlong => ?_, fun hshort hvalid => ?_, fun hshort hbad => ?_⟩
  · simp only [ImmParse, hx, hcond]
    simp only [Bool.false_eq_true, if_false, if_true]
    rw [if_neg (by omega)]
  · simp only [ImmParse, hx, hcond]
    simp only [Bool.false_eq_true, if_false, if_true]
    rw [if_pos hshort]
    rw [parseBitsRev_ok _ 0 0 (fun c hc => hvalid c (List.mem_reverse.mp hc))]
    rw [bitsValRev_reverse]
    norm_num
  · simp only [ImmParse, hx, hcond]
    simp only [Bool.false_eq_true, if_false, if_true]
    rw [if_pos hshort]
    obtain ⟨m, hm⟩ := parseBitsRev_err (strippedBits text).data.reverse 0 0
      (by
        obtain ⟨c, hc, hcbad⟩ := hbad
        exact ⟨c, List.mem_reverse.mpr hc, hcbad⟩)
    rw [hm]
    exact ⟨m, rfl⟩

theorem binary_literal_digit_count_and_charset_witness :
    ImmParse "0b101" = .ok { imm := some 5 } := by
  have h := (binary_literal_digit_count_and_charset "0b101" (by decide)
    (Or.inl (by decide))).2.1 (by decide) (by decide)
  exact h.trans (by decide)

/-! C8 helper lemmas about `startswith` on appended strings. -/

theorem pyStartsWith_append_self (p s : String) : pyStartsWith (p ++ s) p = true := by
  simp only [pyStartsWith, String.data_append]
  rw [List.isPrefixOf_iff_prefix]
  exact List.prefix_append _ _

theorem pyStartsWith_append_single_ne (c d : Char) (p q s : String)
    (hp : p.data = [c]) (hq : q.data = [d]) (hne : ¬ d = c) :
    pyStartsWith (p ++ s) q = false := by
  simp only [pyStartsWith, String.data_append, hp, hq, List.singleton_append]
  simp [List.isPrefixOf, hne]

theorem pyDrop_append_length (p s : String) : pyDrop (p ++ s) (pyLen p) = s := by
  simp [pyDrop, pyLen, String.data_append, List.drop_left]

theorem groupsLookup_skip (regName name : String) (off : Int) (rest : List (String × Int))
    (h : pyStartsWith regName name = false) :
    groupsLookup regName ((name, off) :: rest) = groupsLookup regName rest := by
  simp [groupsLookup, h]

theorem groupsLookup_hit (p s : String) (off : Int) (rest : List (String × Int)) (n : Int)
    (hn : pyIntOfString s = some n) :
    groupsLookup (p ++ s) ((p, off) :: rest) = .ok (off + n) := by
  rw [groupsLookup, if_pos (pyStartsWith_append_self p s), pyDrop_append_length, hn]

theorem regNameToNumber_not_special (name : String)
    (h1 : name ≠ "at") (h2 : name ≠ "gp") (h3 : name ≠ "sp") (h4 : name ≠ "fp")
    (h5 : name ≠ "ra") (h6 : name ≠ "t8") (h7 : name ≠ "t9") :
    regNameToNumber name = groupsLookup name groupTable := by
  unfold regNameToNumber
  rw [if_neg h1, if_neg h2, if_neg h3, if_neg h4, if_neg h5, if_neg h6, if_neg h7]

/-- C8: register operand resolution — `$` followed by a decimal number gives
that number directly; the fixed symbolic table maps `$0`→0, `$t0`→8,
`$t8`→24, `$ra`→31, `$s3`→19, `$k1`→27, `at`→1, `gp`→28, `sp`→29, `fp`→30,
`t9`→25; the group prefixes `v`,`a`,`t`,`s`,`k` add base offsets 2,4,8,16,26
to the numeric suffix (for names not in the special table); and an unknown
symbolic name such as `$zz` fails with the invalid-register assertion. -/
theorem register_resolution_table :
    regSpecToNumber "$0" = .ok 0
    ∧ regSpecToNumber "$t0" = .ok 8
    ∧ regSpecToNumber "$t8" = .ok 24
    ∧ regSpecToNumber "$ra" = .ok 31
    ∧ regSpecToNumber "$s3" = .ok 19
    ∧ regSpecToNumber "$k1" = .ok 27
    ∧ regNameToNumber "at" = .ok 1
    ∧ regNameToNumber "gp" = .ok 28
    ∧ regNameToNumber "sp" = .ok 29
    ∧ regNameToNumber "fp" = .ok 30
    ∧ regNameToNumber "t9" = .ok 25
    ∧ regSpecToNumber "$zz" = .error (.assertionError "invalid register name zz")
    ∧ (∀ (s : String) (n : Int), pyIntOfString s = some n → regSpecToNumber ("$" ++ s) = .ok n)
    ∧ ∀ (p : String) (off : Int), (p, off) ∈ groupTable →
        ∀ (s : String) (n : Int), pyIntOfString s = some n →
          (p ++ s) ∉ (["at", "gp", "sp", "fp", "ra", "t8", "t9"] : List String) →
          regNameToNumber (p ++ s) = .ok (off + n) := by
  refine ⟨by decide, by decide, by decide, by decide, by decide, by decide, by decide, by decide,
    by decide, by decide, by decide, by decide, ?_, ?_⟩
  · intro s n hn
    have hpre : pyStartsWith ("$" ++ s) "$" = true := pyStartsWith_append_self "$" s
    have hdrop : pyDrop ("$" ++ s) 1 = s := pyDrop_append_length "$" s
    simp only [regSpecToNumber, hpre, hdrop, hn]
    simp
  · intro p off hmem s n hn hnotin
    simp only [List.mem_cons, List.not_mem_nil, or_false, not_or] at hnotin
    obtain ⟨h1, h2, h3, h4, h5, h6, h7⟩ := hnotin
    simp only [groupTable, List.mem_cons, List.not_mem_nil, or_false] at hmem
    have hv := pyStartsWith_append_single_ne
    rcases hmem with ⟨rfl, rfl⟩ | ⟨rfl, rfl⟩ | ⟨rfl, rfl⟩ | ⟨rfl, rfl⟩ | ⟨rfl, rfl⟩
    · rw [regNameToNumber_not_special _ h1 h2 h3 h4 h5 h6 h7]
      simp only [groupTable]
      exact groupsLookup_hit "v" s 2 _ n hn
    · rw [regNameToNumber_not_special _ h1 h2 h3 h4 h5 h6 h7]
      simp only [groupTable]
      rw [groupsLookup_skip _ _ _ _ (hv 'a' 'v' "a" "v" s rfl rfl (by decide))]
      exact groupsLookup_hit "a" s 4 _ n hn
    · rw [regNameToNumber_not_special _ h1 h2 h3 h4 h5 h6 h7]
      simp only [groupTable]
      rw [groupsLookup_skip _ _ _ _ (hv 't' 'v' "t" "v" s rfl rfl (by decide)),
        groupsLookup_skip _ _ _ _ (hv 't' 'a' "t" "a" s rfl rfl (by decide))]
      exact groupsLookup_hit "t" s 8 _ n hn
    · rw [regNameToNumber_not_special _ h1 h2 h3 h4 h5 h6 h7]
      simp only [groupTable]
      rw [groupsLookup_skip _ _ _ _ (hv 's' 'v' "s" "v" s rfl rfl (by decide)),
        groupsLookup_skip _ _ _ _ (hv 's' 'a' "s" "a" s rfl rfl (by decide)),
        groupsLookup_skip _ _ _ _ (hv 's' 't' "s" "t" s rfl rfl (by decide))]
      exact groupsLookup_hit "s" s 16 _ n hn
    · rw [regNameToNumber_not_special _ h1 h2 h3 h4 h5 h6 h7]
      simp only [groupTable]
      rw [groupsLookup_skip _ _ _ _ (hv 'k' 'v' "k" "v" s rfl rfl (by decide)),
        groupsLookup_skip _ _ _ _ (hv 'k' 'a' "k" "a" s rfl rfl (by decide)),
        groupsLookup_skip _ _ _ _ (hv 'k' 't' "k" "t" s rfl rfl (by decide)),
        groupsLookup_skip _ _ _ _ (hv 'k' 's' "k" "s" s rfl rfl (by decide))]
      exact groupsLookup_hit "k" s 26 _ n hn

theorem register_resolution_table_witness :
    regSpecToNumber ("$" ++ "31") = .ok 31
    ∧ regNameToNumber ("t" ++ "3") = .ok (8 + 3) := by
  constructor
  · exact register_resolution_table.2.2.2.2.2.2.2.2.2.2.2.2.1 "31" 31 (by decide)
  · exact register_resolution_table.2.2.2.2.2.2.2.2.2.2.2.2.2 "t" 8 (by decide) "3" 3
      (by decide) (by decide)

/-- C10: for every settings combination, assembling an empty list of source
lines, or a list of only blank lines and comment-only lines carrying no
pragma, succeeds with an empty unit sequence and an empty rendered text. -/
theorem blank_and_plain_comment_lines_assemble_empty (s : Settings) (lines : List String)
    (h : ∀ l ∈ lines, blankOrPlainComment l = true) :
    assemble lines s = .ok ([], "") := by
  have hloop : ∀ (ls : List String) (flag : Bool), (∀ l ∈ ls, blankOrPlainComment l = true) →
      assembleLoop ls flag = .ok ([], flag) := by
    intro ls
    induction ls with
    | nil => intro flag _; rfl
    | cons l rest ih =>
      intro flag hall
      have hl := hall l (by simp)
      have hrest : ∀ x ∈ rest, blankOrPlainComment x = true := fun x hx => hall x (by simp [hx])
      unfold blankOrPlainComment at hl
      rw [Bool.or_eq_true] at hl
      rcases hl with hblank | hcomment
      · have hb : pyStrip l = "" := by simpa using hblank
        have hline : assembleLine l = .ok ([], none) := by
          unfold assembleLine
          simp [hb]
        rw [assembleLoop, hline]
        simp [ih flag hrest, directiveUpdate]
      · rw [Bool.and_eq_true] at hcomment
        obtain ⟨hsemi, hnotpragma⟩ := hcomment
        have hne : ¬ (pyStrip l = "") := by
          intro he
          rw [he] at hsemi
          exact absurd hsemi (by decide)
        have hnp : pyStartsWith (pyStrip (pyPartition (pyStrip l) ';').2.2) "pragma" = false := by
          simpa using hnotpragma
        have hline : assembleLine l = .ok ([], some (pyStrip (pyPartition (pyStrip l) ';').2.2)) := by
          unfold assembleLine
          rw [if_neg hne, if_pos hsemi]
        have hdir : directiveUpdate (some (pyStrip (pyPartition (pyStrip l) ';').2.2)) flag =
            .ok flag := by
          simp [directiveUpdate, hnp]
        rw [assembleLoop, hline]
        simp [hdir, ih flag hrest]
  obtain ⟨an, av, ba⟩ := s
  unfold assemble
  rw [hloop lines an h]
  cases an <;> cases av <;> rfl

theorem blank_and_plain_comment_lines_assemble_empty_witness :
    assemble ["", "  ; hello "] ⟨true, true, true⟩ = .ok ([], "") :=
  blank_and_plain_comment_lines_assemble_empty ⟨true, true, true⟩ _ (by decide)

/-! C9 helper lemmas: hex formatting and the renderer's string algebra. -/

theorem upperChar_hexDigitLower (n : Nat) (h : n < 16) :
    pyUpperChar (hexDigitLower n) = hexDigitUpper n := by
  interval_cases n <;> decide

theorem pyUpper_append (a b : String) : pyUpper (a ++ b) = pyUpper a ++ pyUpper b := by
  apply String.ext
  simp [pyUpper, String.data_append]

theorem pyUpper_hexByteLower (b : Byte) : pyUpper (hexByteLower b) = hexByteUpper b := by
  have hb := b.isLt
  have h1 := upperChar_hexDigitLower (b.val / 16) (by omega)
  have h2 := upperChar_hexDigitLower (b.val % 16) (by omega)
  apply String.ext
  simp [pyUpper, hexByteLower, hexByteUpper, h1, h2]

theorem bytesHex_four (b0 b1 b2 b3 : Byte) :
    bytesHex [b0, b1, b2, b3] =
      hexByteLower b0 ++ hexByteLower b1 ++ hexByteLower b2 ++ hexByteLower b3 := rfl

theorem instrHex_data (b0 b1 b2 b3 : Byte) :
    (pyUpper (bytesHex [b0, b1, b2, b3])).data =
      [hexDigitUpper (b0.val / 16), hexDigitUpper (b0.val % 16),
       hexDigitUpper (b1.val / 16), hexDigitUpper (b1.val % 16),
       hexDigitUpper (b2.val / 16), hexDigitUpper (b2.val % 16),
       hexDigitUpper (b3.val / 16), hexDigitUpper (b3.val % 16)] := by
  rw [bytesHex_four, pyUpper_append, pyUpper_append, pyUpper_append,
    pyUpper_hexByteLower, pyUpper_hexByteLower, pyUpper_hexByteLower, pyUpper_hexByteLower]
  simp [String.data_append, hexByteUpper]

theorem pySlice_four_pairs (s : String) (x0 y0 x1 y1 x2 y2 x3 y3 : Char)
    (hd : s.data = [x0, y0, x1, y1, x2, y2, x3, y3]) :
    pySlice s 0 2 = ⟨[x0, y0]⟩ ∧ pySlice s 2 4 = ⟨[x1, y1]⟩
    ∧ pySlice s 4 6 = ⟨[x2, y2]⟩ ∧ pySlice s 6 8 = ⟨[x3, y3]⟩ := by
  refine ⟨?_, ?_, ?_, ?_⟩ <;> (apply String.ext; simp [pySlice, hd])

theorem vhdlUnitText_byte (b0 b1 b2 b3 : Byte) (src : Option String) :
    vhdlUnitText true [b0, b1, b2, b3] src = vhdlByteLineSpec ([b0, b1, b2, b3], src) := by
  obtain ⟨hs0, hs1, hs2, hs3⟩ := pySlice_four_pairs (pyUpper (bytesHex [b0, b1, b2, b3]))
    _ _ _ _ _ _ _ _ (instrHex_data b0 b1 b2 b3)
  unfold vhdlUnitText vhdlByteLineSpec
  rw [show List.range 4 = [0, 1, 2, 3] from rfl]
  simp only [List.foldl]
  norm_num [hs0, hs1, hs2, hs3]
  apply String.ext
  simp [String.data_append, hexByteUpper, List.append_assoc]

theorem vhdl_foldl_acc (tb : Bool) (l : List AUnit) (acc : String) :
    l.foldl (fun a u => a ++ vhdlUnitText tb u.1 u.2 ++ "\n") acc =
      acc ++ l.foldl (fun a u => a ++ vhdlUnitText tb u.1 u.2 ++ "\n") "" := by
  induction l generalizing acc with
  | nil =>
    apply String.ext
    simp [String.data_append]
  | cons u rest ih =>
    show List.foldl _ (acc ++ vhdlUnitText tb u.1 u.2 ++ "\n") rest = _
    rw [ih (acc ++ vhdlUnitText tb u.1 u.2 ++ "\n")]
    show _ = acc ++ List.foldl _ ("" ++ vhdlUnitText tb u.1 u.2 ++ "\n") rest
    rw [ih ("" ++ vhdlUnitText tb u.1 u.2 ++ "\n")]
    apply String.ext
    simp [String.data_append, List.append_assoc]

theorem pyDropLast_append_newline (a : String) : pyDropLast (a ++ "\n") = a := by
  apply String.ext
  simp only [pyDropLast, String.data_append, show ("\n" : String).data = ['\n'] from rfl]
  exact List.dropLast_concat ..

theorem pyDropLast_append_of_ne (a b : String) (hb : b.data ≠ []) :
    pyDropLast (a ++ b) = a ++ pyDropLast b := by
  apply String.ext
  simp [pyDropLast, String.data_append, List.dropLast_append_of_ne_nil _ hb]

theorem exists_four (w : Bytes) (hw : w.length = 4) :
    ∃ a b c d, w = [a, b, c, d] := by
  rcases w with _ | ⟨a, _ | ⟨b, _ | ⟨c, _ | ⟨d, _ | ⟨e, t⟩⟩⟩⟩⟩ <;> simp_all

theorem machineCodeToVhdl_cons (tb : Bool) (u : AUnit) (rest : List AUnit) :
    machineCodeToVhdl (u :: rest) tb =
      pyDropLast ((vhdlUnitText tb u.1 u.2 ++ "\n") ++
        rest.foldl (fun a x => a ++ vhdlUnitText tb x.1 x.2 ++ "\n") "") := by
  unfold machineCodeToVhdl
  show pyDropLast (List.foldl _ ("" ++ vhdlUnitText tb u.1 u.2 ++ "\n") rest) = _
  rw [vhdl_foldl_acc tb rest ("" ++ vhdlUnitText tb u.1 u.2 ++ "\n")]
  congr 1

/-- C9: with `as_vhdl = true` and `byte_addressed = true`, the rendering is
exactly one line per Assembled Unit — two levels of indentation, four
2-hex-digit literal tokens each followed by a comma with a space separator
between all but the last, then the trimmed source line after a comment
marker when present — joined by newlines with no trailing newline after the
final line. -/
theorem byte_addressed_vhdl_rendering (units : List AUnit)
    (h : ∀ u ∈ units, u.1.length = 4) :
    machineCodeToVhdl units true = vhdlByteSpecRender units := by
  induction units with
  | nil => rfl
  | cons u rest ih =>
    have hu := h u (by simp)
    have hrest : ∀ x ∈ rest, x.1.length = 4 := fun x hx => h x (by simp [hx])
    obtain ⟨w, src⟩ := u
    obtain ⟨b0, b1, b2, b3, rfl⟩ := exists_four w hu
    rw [machineCodeToVhdl_cons]
    cases rest with
    | nil =>
      rw [show (List.foldl (fun a x => a ++ vhdlUnitText true x.1 x.2 ++ "\n") ""
        ([] : List AUnit)) = "" from rfl]
      rw [show ((vhdlUnitText true ([b0, b1, b2, b3], src).1 ([b0, b1, b2, b3], src).2 ++ "\n")
          ++ "" : String)
        = vhdlUnitText true [b0, b1, b2, b3] src ++ "\n" from by
          apply String.ext
          simp [String.data_append]]
      rw [pyDropLast_append_newline, vhdlUnitText_byte]
      rfl
    | cons r rs =>
      have hsplit : List.foldl (fun a x => a ++ vhdlUnitText true x.1 x.2 ++ "\n") "" (r :: rs)
          = ("" ++ vhdlUnitText true r.1 r.2 ++ "\n") ++
            List.foldl (fun a x => a ++ vhdlUnitText true x.1 x.2 ++ "\n") "" rs := by
        show List.foldl _ ("" ++ vhdlUnitText true r.1 r.2 ++ "\n") rs = _
        rw [vhdl_foldl_acc true rs ("" ++ vhdlUnitText true r.1 r.2 ++ "\n")]
      have hne : (List.foldl (fun a x => a ++ vhdlUnitText true x.1 x.2 ++ "\n") ""
          (r :: rs)).data ≠ [] := by
        rw [hsplit]
        simp [String.data_append, show ("\n" : String).data = ['\n'] from rfl]
      rw [pyDropLast_append_of_ne _ _ hne]
      rw [show pyDropLast (List.foldl (fun a x => a ++ vhdlUnitText true x.1 x.2 ++ "\n") ""
          (r :: rs)) = machineCodeToVhdl (r :: rs) true from rfl]
      rw [ih hrest, vhdlUnitText_byte]
      show _ = vhdlByteLineSpec ([b0, b1, b2, b3], src) ++ "\n" ++
        vhdlByteSpecRender (r :: rs)
      apply String.ext
      simp [String.data_append, List.append_assoc]

theorem byte_addressed_vhdl_rendering_witness :
    machineCodeToVhdl
        [([140, 9, 3, 254], some " lw $t1, 0x3fe($0) "), (nopMachineCode, none)] true =
      vhdlByteSpecRender
        [([140, 9, 3, 254], some " lw $t1, 0x3fe($0) "), (nopMachineCode, none)] :=
  byte_addressed_vhdl_rendering _ (by decide)

end MipsAsm
